import Mathlib

/-!
Verification of the omnia-langchain-runtime conversation runtime.

Shallow embedding of the Python sources:
* `session/base.py` — `Session`, `SessionStore.get_or_create`
* `session/memory.py` — `InMemorySessionStore` (TTL + LRU over an `OrderedDict`,
  modelled as an association list, least-recently-used entry first)
* `session/redis.py` — `RedisSessionStore._serialize` / `_deserialize`
* `handler.py` — `LangChainHandler.handle_message` event-translation loop
* `tools/manager.py` — `ToolManager.execute` retry loop, `initialize`
* `tools/config.py` — `ToolsConfig`, `get_tool_handler`
* `tools/http.py` — `HTTPToolAdapter.tool_name`, `_parse_timeout`

Timestamps (`datetime.utcnow()`) are modelled as natural numbers; `timedelta`
comparison `now - updated_at > ttl` becomes `ttl < now - updatedAt` on `Nat`
(faithful since wall time is monotone and the ttl is non-negative).
-/

namespace Omnia

/-- `additional_kwargs` of a LangChain message, modelled as a finite map. -/
abbrev Kwargs := List (String × String)

/-- The four LangChain message classes stored in sessions
(`HumanMessage` / `AIMessage` / `SystemMessage` / `ToolMessage`). -/
inductive LCMessage where
  | human (content : String) (kwargs : Kwargs)
  | ai (content : String) (kwargs : Kwargs)
  | system (content : String) (kwargs : Kwargs)
  | tool (content : String) (toolCallId : String) (kwargs : Kwargs)
deriving DecidableEq, Repr

/-- `session/base.py` `Session` dataclass. -/
structure Session where
  sessionId : String
  messages : List LCMessage
  metadata : List (String × String)
  createdAt : Nat
  updatedAt : Nat
deriving DecidableEq, Repr

/-- `Session.add_message`: append and refresh `updated_at`. -/
def Session.addMessage (s : Session) (m : LCMessage) (now : Nat) : Session :=
  { s with messages := s.messages ++ [m], updatedAt := now }

/-! ### Association-list operations mirroring Python `dict` / `OrderedDict`.
Keys are unique in every store reachable from the empty dict, matching the
`dict` invariant; the operations act on the first occurrence of a key. -/

/-- `d.get(k)` / `d[k]`. -/
def dictGet {α : Type} : List (String × α) → String → Option α
  | [], _ => none
  | (k, v) :: rest, key => if k = key then some v else dictGet rest key

/-- `del d[k]` (no-op when the key is absent, callers guard with `in`). -/
def dictErase {α : Type} : List (String × α) → String → List (String × α)
  | [], _ => []
  | (k, v) :: rest, key => if k = key then rest else (k, v) :: dictErase rest key

/-- `d[k] = v`: overwrite in place when present (Python dicts keep the original
insertion position on assignment), append otherwise. -/
def dictSet {α : Type} : List (String × α) → String → α → List (String × α)
  | [], key, v => [(key, v)]
  | (k, w) :: rest, key, v =>
    if k = key then (k, v) :: rest else (k, w) :: dictSet rest key v

/-! ### `session/memory.py` — `InMemorySessionStore` -/

/-- The `OrderedDict` backing the in-memory store: least-recently-used first. -/
abbrev MemStore := List (String × Session)

/-- The session ids held by the store, in LRU-to-MRU order. -/
def storeIds (st : MemStore) : List String := st.map Prod.fst

/-- `InMemorySessionStore.get`: lazy TTL expiry, then promotion to
most-recently-used (`move_to_end`).  Returns the looked-up session (aliased
with the stored entry) and the store after the call. -/
def memGet (ttl now : Nat) (st : MemStore) (sid : String) :
    Option Session × MemStore :=
  match dictGet st sid with
  | none => (none, st)
  | some s =>
    if ttl < now - s.updatedAt then (none, dictErase st sid)
    else (some s, dictErase st sid ++ [(sid, s)])

/-- `InMemorySessionStore.save`: refresh `updated_at`, delete any existing
entry for the id, evict from the least-recently-used end while the size is at
least `max_sessions`, then insert as most-recently-used.  The `while` loop is
rendered as a single `drop` from the front; for `maxSessions = 0` the Python
loop would raise `KeyError` on an empty dict, so theorems assume
`0 < maxSessions` where it matters. -/
def memSave (maxSessions now : Nat) (st : MemStore) (sess : Session) : MemStore :=
  let s := { sess with updatedAt := now }
  let st1 := dictErase st s.sessionId
  let st2 := st1.drop (st1.length + 1 - maxSessions)
  st2 ++ [(s.sessionId, s)]

/-- `SessionStore.get_or_create` (from `session/base.py`) over the in-memory
backend: `get`, then create-and-save a fresh session under the id if absent.
The returned session is the same Python object as the stored one. -/
def memGetOrCreate (ttl maxSessions now : Nat) (st : MemStore) (sid : String) :
    Session × MemStore :=
  match memGet ttl now st sid with
  | (some s, st1) => (s, st1)
  | (none, st1) =>
    let s : Session := ⟨sid, [], [], now, now⟩
    (s, memSave maxSessions now st1 s)

/-! ### Generic dictionary lemmas -/

theorem dictGet_eq_none_iff {α : Type} (l : List (String × α)) (key : String) :
    dictGet l key = none ↔ key ∉ l.map Prod.fst := by
  induction l with
  | nil => simp [dictGet]
  | cons p rest ih =>
    obtain ⟨k, v⟩ := p
    by_cases hk : k = key
    · subst hk; simp [dictGet]
    · simp [dictGet, hk, ih, Ne.symm hk]

theorem dictGet_isSome_iff {α : Type} (l : List (String × α)) (key : String) :
    (dictGet l key).isSome = true ↔ key ∈ l.map Prod.fst := by
  rw [Option.isSome_iff_ne_none]
  constructor
  · intro h
    by_contra hmem
    exact h ((dictGet_eq_none_iff l key).mpr hmem)
  · intro h hnone
    exact ((dictGet_eq_none_iff l key).mp hnone) h

theorem dictGet_mem {α : Type} (l : List (String × α)) (key : String) (v : α)
    (h : dictGet l key = some v) : (key, v) ∈ l := by
  induction l with
  | nil => simp [dictGet] at h
  | cons p rest ih =>
    obtain ⟨k, w⟩ := p
    by_cases hk : k = key
    · subst hk
      simp [dictGet] at h
      simp [h]
    · simp [dictGet, hk] at h
      exact List.mem_cons_of_mem _ (ih h)

theorem map_fst_dictErase {α : Type} (l : List (String × α)) (key : String) :
    (dictErase l key).map Prod.fst = (l.map Prod.fst).erase key := by
  induction l with
  | nil => simp [dictErase]
  | cons p rest ih =>
    obtain ⟨k, v⟩ := p
    by_cases hk : k = key
    · subst hk; simp [dictErase, List.erase_cons]
    · simp [dictErase, hk, List.erase_cons, ih]

theorem dictGet_dictErase_self {α : Type} (l : List (String × α)) (key : String)
    (hnd : (l.map Prod.fst).Nodup) : dictGet (dictErase l key) key = none := by
  rw [dictGet_eq_none_iff, map_fst_dictErase]
  intro hmem
  by_cases hk : key ∈ l.map Prod.fst
  · exact (List.Nodup.mem_erase_iff hnd).mp hmem |>.1 rfl
  · exact hk (List.mem_of_mem_erase hmem)

theorem dictGet_append_right {α : Type} (l1 l2 : List (String × α)) (key : String)
    (h : key ∉ l1.map Prod.fst) :
    dictGet (l1 ++ l2) key = dictGet l2 key := by
  induction l1 with
  | nil => rfl
  | cons p rest ih =>
    obtain ⟨k, v⟩ := p
    simp only [List.map_cons, List.mem_cons] at h
    push_neg at h
    simp [dictGet, Ne.symm h.1, ih h.2]

theorem dictGet_dictSet_self {α : Type} (l : List (String × α)) (key : String) (v : α) :
    dictGet (dictSet l key v) key = some v := by
  induction l with
  | nil => simp [dictSet, dictGet]
  | cons p rest ih =>
    obtain ⟨k, w⟩ := p
    by_cases hk : k = key
    · subst hk; simp [dictSet, dictGet]
    · simp [dictSet, dictGet, hk, ih]

theorem dictGet_dictSet_ne {α : Type} (l : List (String × α)) (key key2 : String) (v : α)
    (h : key ≠ key2) : dictGet (dictSet l key v) key2 = dictGet l key2 := by
  induction l with
  | nil => simp [dictSet, dictGet, h]
  | cons p rest ih =>
    obtain ⟨k, w⟩ := p
    by_cases hk : k = key
    · subst hk; simp [dictSet, dictGet, h, ih]
    · simp [dictSet, dictGet, hk, ih]

/-! ### Claim C8 — TTL expiry on `get` -/

/-- C8: in the in-process store, a `get` whose entry satisfies
`now - updated_at > ttl` returns absent, removes the entry, and every
subsequent `get` for that id (at any later time) also returns absent and
leaves the store unchanged, until a new save. -/
theorem C8_ttl_expiry (ttl now now2 : Nat) (st : MemStore) (sid : String)
    (s : Session) (hnd : (storeIds st).Nodup)
    (hs : dictGet st sid = some s) (hexp : ttl < now - s.updatedAt) :
    (memGet ttl now st sid).1 = none ∧
    dictGet (memGet ttl now st sid).2 sid = none ∧
    memGet ttl now2 (memGet ttl now st sid).2 sid =
      (none, (memGet ttl now st sid).2) := by
  have hres : memGet ttl now st sid = (none, dictErase st sid) := by
    simp [memGet, hs, hexp]
  have habsent : dictGet (dictErase st sid) sid = none :=
    dictGet_dictErase_self st sid hnd
  refine ⟨by rw [hres], by rw [hres]; exact habsent, ?_⟩
  rw [hres]
  simp [memGet, habsent]

/-- Witness for C8 at a concrete store: one entry, last updated at time 0,
ttl 1, read at time 5. -/
theorem C8_ttl_expiry_witness :
    (memGet 1 5 [("a", ⟨"a", [], [], 0, 0⟩)] "a").1 = none ∧
    dictGet (memGet 1 5 [("a", ⟨"a", [], [], 0, 0⟩)] "a").2 "a" = none ∧
    memGet 1 7 (memGet 1 5 [("a", ⟨"a", [], [], 0, 0⟩)] "a").2 "a" =
      (none, (memGet 1 5 [("a", ⟨"a", [], [], 0, 0⟩)] "a").2) :=
  C8_ttl_expiry 1 5 7 [("a", ⟨"a", [], [], 0, 0⟩)] "a" ⟨"a", [], [], 0, 0⟩
    (by decide) (by decide) (by decide)

/-! ### `handler.py` — `LangChainHandler.handle_message`

The agent (`create_agent` / `astream_events`) is the opaque external reasoning
engine; a turn consumes its events in order.  Event payloads already carry the
strings the handler would compute from them (`json.dumps` of tool input,
string-coerced tool output). -/

/-- The `astream_events` event kinds `handle_message` reacts to.
`llmEnd` stands for an `on_llm_end` event whose output carries a
`token_usage` dict; `other` covers every ignored event kind. -/
inductive AgentEvent where
  | chatModelStream (content : String)
  | toolStart (runId name argsJson : String)
  | toolEnd (runId output : String)
  | llmEnd (promptTokens completionTokens : Nat)
  | other
deriving DecidableEq, Repr

/-- `runtime_pb2.Usage` (the cost field is the constant 0.0 in the source). -/
structure Usage where
  inputTokens : Nat
  outputTokens : Nat
deriving DecidableEq, Repr

/-- `runtime_pb2.ServerMessage`, the outbound wire tagged union. -/
inductive ServerMessage where
  | chunk (content : String)
  | toolCall (id name argumentsJson : String)
  | toolResult (id resultJson : String) (isError : Bool)
  | done (finalContent : String) (usage : Usage)
  | error (code message : String)
deriving DecidableEq, Repr

/-- Terminal wire messages: `done` and `error`. -/
def ServerMessage.isTerminal : ServerMessage → Bool
  | .done _ _ => true
  | .error _ _ => true
  | _ => false

/-- Recognizer for `done`. -/
def ServerMessage.isDone : ServerMessage → Bool
  | .done _ _ => true
  | _ => false

/-- Recognizer for `tool_result`. -/
def ServerMessage.isToolResult : ServerMessage → Bool
  | .toolResult _ _ _ => true
  | _ => false

/-- The mutable turn state of the event loop: `final_content`,
`total_input_tokens`, `total_output_tokens`. -/
structure TurnAcc where
  finalContent : String
  inTok : Nat
  outTok : Nat
deriving DecidableEq, Repr

/-- One iteration of the `async for event in agent.astream_events` loop:
the updated accumulator and the messages yielded for this event.  An empty
chunk is skipped (`if chunk and ... chunk.content`); a tool result is always
emitted with `is_error=False` (source line `is_error=False`). -/
def stepEvent (acc : TurnAcc) : AgentEvent → TurnAcc × List ServerMessage
  | .chatModelStream c =>
    if c = "" then (acc, [])
    else ({ acc with finalContent := acc.finalContent ++ c }, [.chunk c])
  | .toolStart rid name args => (acc, [.toolCall rid name args])
  | .toolEnd rid output => (acc, [.toolResult rid output false])
  | .llmEnd pin pout =>
    ({ acc with inTok := acc.inTok + pin, outTok := acc.outTok + pout }, [])
  | .other => (acc, [])

/-- The whole event loop over a list of events. -/
def runEvents (acc : TurnAcc) : List AgentEvent → TurnAcc × List ServerMessage
  | [] => (acc, [])
  | e :: es =>
    let p := stepEvent acc e
    let q := runEvents p.1 es
    (q.1, p.2 ++ q.2)

/-- Where a turn raises, if anywhere.  `onGetOrCreate`: the initial session
I/O raises; `onStream k`: agent invocation / event consumption raises after
`k` events were consumed (``k = 0`` covers a failing `create_agent`/stream
start); `onSave`: the final `session_store.save` raises.  Each constructor
carries `str(e)`, the exception text placed in the `error` message. -/
inductive TurnFault where
  | onGetOrCreate (msg : String)
  | onStream (k : Nat) (msg : String)
  | onSave (msg : String)
deriving DecidableEq, Repr

/-- `LangChainHandler.handle_message` over the in-memory session backend.
Returns the yielded wire messages and the store after the turn.  Mutations of
the session object (`add_message`) are visible in the store immediately via
`dictSet`, because `get`/`get_or_create` return the stored object itself. -/
def handleMessage (ttl maxSessions now : Nat) (st : MemStore)
    (sid content : String) (events : List AgentEvent)
    (fault : Option TurnFault) : List ServerMessage × MemStore :=
  match fault with
  | some (.onGetOrCreate m) => ([.error "HANDLER_ERROR" m], st)
  | _ =>
    let p := memGetOrCreate ttl maxSessions now st sid
    let sess1 := p.1.addMessage (.human content []) now
    let st2 := dictSet p.2 sid sess1
    match fault with
    | some (.onStream k m) =>
      ((runEvents ⟨"", 0, 0⟩ (events.take k)).2 ++ [.error "HANDLER_ERROR" m], st2)
    | some (.onSave m) =>
      let q := runEvents ⟨"", 0, 0⟩ events
      let sess2 := if q.1.finalContent = "" then sess1
        else sess1.addMessage (.ai q.1.finalContent []) now
      (q.2 ++ [.error "HANDLER_ERROR" m], dictSet st2 sid sess2)
    | _ =>
      let q := runEvents ⟨"", 0, 0⟩ events
      let sess2 := if q.1.finalContent = "" then sess1
        else sess1.addMessage (.ai q.1.finalContent []) now
      let st3 := dictSet st2 sid sess2
      (q.2 ++ [.done q.1.finalContent ⟨q.1.inTok, q.1.outTok⟩],
       memSave maxSessions now st3 sess2)

/-! ### Shape lemmas for the event loop -/

theorem stepEvent_no_terminal (acc : TurnAcc) (e : AgentEvent) :
    ∀ m ∈ (stepEvent acc e).2, m.isTerminal = false := by
  cases e with
  | chatModelStream c =>
    by_cases hc : c = "" <;> simp [stepEvent, hc, ServerMessage.isTerminal]
  | toolStart rid name args => simp [stepEvent, ServerMessage.isTerminal]
  | toolEnd rid output => simp [stepEvent, ServerMessage.isTerminal]
  | llmEnd pin pout => simp [stepEvent]
  | other => simp [stepEvent]

theorem runEvents_no_terminal (events : List AgentEvent) : ∀ (acc : TurnAcc),
    ∀ m ∈ (runEvents acc events).2, m.isTerminal = false := by
  induction events with
  | nil => intro acc m hm; simp [runEvents] at hm
  | cons e es ih =>
    intro acc m hm
    simp only [runEvents, List.mem_append] at hm
    rcases hm with hm | hm
    · exact stepEvent_no_terminal acc e m hm
    · exact ih _ m hm

theorem runEvents_append (xs ys : List AgentEvent) : ∀ (acc : TurnAcc),
    runEvents acc (xs ++ ys) =
      ((runEvents (runEvents acc xs).1 ys).1,
       (runEvents acc xs).2 ++ (runEvents (runEvents acc xs).1 ys).2) := by
  induction xs with
  | nil => intro acc; simp [runEvents]
  | cons e es ih =>
    intro acc
    simp [runEvents, ih]

/-! ### Claim C1 — exactly one terminal message, always last -/

/-- C1: for every turn and fault scenario, `handle_message` emits a non-empty
message sequence whose last element is terminal, everything before it is
non-terminal (hence exactly one terminal message, never a `done` after an
`error`), and the terminal is `done` exactly on fault-free completion. -/
theorem C1_one_terminal (ttl maxSessions now : Nat) (st : MemStore)
    (sid content : String) (events : List AgentEvent)
    (fault : Option TurnFault) :
    (handleMessage ttl maxSessions now st sid content events fault).1 ≠ [] ∧
    (∀ m ∈ (handleMessage ttl maxSessions now st sid content events fault).1.dropLast,
      m.isTerminal = false) ∧
    ((handleMessage ttl maxSessions now st sid content events fault).1.getLastD
      (.chunk "")).isTerminal = true ∧
    (((handleMessage ttl maxSessions now st sid content events fault).1.getLastD
      (.chunk "")).isDone = true ↔ fault = none) := by
  match fault with
  | none =>
    simp only [handleMessage]
    refine ⟨by simp, ?_, ?_, ?_⟩
    · rw [List.dropLast_concat]
      exact runEvents_no_terminal events _
    · rw [List.getLastD_concat]; rfl
    · rw [List.getLastD_concat]; simp [ServerMessage.isDone]
  | some (.onGetOrCreate m) =>
    simp [handleMessage, ServerMessage.isTerminal, ServerMessage.isDone]
  | some (.onStream k m) =>
    simp only [handleMessage]
    refine ⟨by simp, ?_, ?_, ?_⟩
    · rw [List.dropLast_concat]
      exact runEvents_no_terminal _ _
    · rw [List.getLastD_concat]; rfl
    · rw [List.getLastD_concat]; simp [ServerMessage.isDone]
  | some (.onSave m) =>
    simp only [handleMessage]
    refine ⟨by simp, ?_, ?_, ?_⟩
    · rw [List.dropLast_concat]
      exact runEvents_no_terminal events _
    · rw [List.getLastD_concat]; rfl
    · rw [List.getLastD_concat]; simp [ServerMessage.isDone]

/-! ### Claim C6 — end-to-end fault-free scenario -/

/-- C6: content "hello", no tools, agent emits two text deltas and a
completion with usage in=5/out=3: the turn yields exactly
`chunk "Hi"`, `chunk " there"`, `done "Hi there" {5, 3}`, and the stored
session holds exactly the user and assistant messages. -/
theorem C6_hello_scenario :
    handleMessage 86400 10000 0 [] "s1" "hello"
      [.chatModelStream "Hi", .chatModelStream " there", .llmEnd 5 3] none =
    ([.chunk "Hi", .chunk " there", .done "Hi there" ⟨5, 3⟩],
     [("s1", ⟨"s1", [.human "hello" [], .ai "Hi there" []], [], 0, 0⟩)]) := by
  decide

/-! ### Claim C5 — stream raises mid-turn after emitting chunks -/

/-- C5: when the agent stream raises after `k` events, at least one of them a
non-empty text delta, the turn yields exactly the messages of the consumed
prefix (all non-terminal, so the chunks already sent) followed by one `error`,
and the stored session holds the history as of `get_or_create` plus only the
user message of this turn — no assistant message is appended. -/
theorem C5_midstream_failure (ttl maxSessions now : Nat) (st : MemStore)
    (sid content : String) (events : List AgentEvent) (k : Nat) (m : String)
    (hchunk : ∃ c, AgentEvent.chatModelStream c ∈ events.take k ∧ c ≠ "") :
    (handleMessage ttl maxSessions now st sid content events
        (some (.onStream k m))).1 =
      (runEvents ⟨"", 0, 0⟩ (events.take k)).2 ++ [.error "HANDLER_ERROR" m] ∧
    (∀ msg ∈ (runEvents ⟨"", 0, 0⟩ (events.take k)).2, msg.isTerminal = false) ∧
    dictGet (handleMessage ttl maxSessions now st sid content events
        (some (.onStream k m))).2 sid =
      some ((memGetOrCreate ttl maxSessions now st sid).1.addMessage
        (.human content []) now) := by
  refine ⟨rfl, runEvents_no_terminal _ _, ?_⟩
  simp only [handleMessage]
  exact dictGet_dictSet_self _ _ _

/-- Witness for C5: fresh store, one chunk "Hi", stream raises after it. -/
theorem C5_midstream_failure_witness :
    (handleMessage 60 10 0 [] "s1" "hello" [.chatModelStream "Hi"]
        (some (.onStream 1 "boom"))).1 =
      (runEvents ⟨"", 0, 0⟩ ([AgentEvent.chatModelStream "Hi"].take 1)).2 ++
        [.error "HANDLER_ERROR" "boom"] ∧
    (∀ msg ∈ (runEvents ⟨"", 0, 0⟩ ([AgentEvent.chatModelStream "Hi"].take 1)).2,
      msg.isTerminal = false) ∧
    dictGet (handleMessage 60 10 0 [] "s1" "hello" [.chatModelStream "Hi"]
        (some (.onStream 1 "boom"))).2 "s1" =
      some ((memGetOrCreate 60 10 0 [] "s1").1.addMessage (.human "hello" []) 0) :=
  C5_midstream_failure 60 10 0 [] "s1" "hello" [.chatModelStream "Hi"] 1 "boom"
    ⟨"Hi", by decide, by decide⟩

/-! ### `session/redis.py` — serialization round trip

`_serialize` builds a JSON document from a dict of strings, lists and integer
timestamps, and `_deserialize` reads the same fields back; the JSON text layer
(`json.dumps`/`json.loads`, `isoformat`/`fromisoformat`) is the identity on
such records, so the embedding works on the records themselves. -/

/-- One entry of the serialized `messages` list: class-name tag, content,
`additional_kwargs`, and `tool_call_id` (written only for `ToolMessage`). -/
structure SerializedMessage where
  type : String
  content : String
  additionalKwargs : Kwargs
  toolCallId : Option String
deriving DecidableEq, Repr

/-- The record `_serialize` turns into JSON. -/
structure SerializedSession where
  messages : List SerializedMessage
  metadata : List (String × String)
  createdAt : Nat
  updatedAt : Nat
deriving DecidableEq, Repr

/-- The per-message part of `RedisSessionStore._serialize`. -/
def serializeMessage : LCMessage → SerializedMessage
  | .human c kw => ⟨"HumanMessage", c, kw, none⟩
  | .ai c kw => ⟨"AIMessage", c, kw, none⟩
  | .system c kw => ⟨"SystemMessage", c, kw, none⟩
  | .tool c tid kw => ⟨"ToolMessage", c, kw, some tid⟩

/-- `RedisSessionStore._serialize`. -/
def redisSerialize (s : Session) : SerializedSession :=
  ⟨s.messages.map serializeMessage, s.metadata, s.createdAt, s.updatedAt⟩

/-- The per-message part of `RedisSessionStore._deserialize`: dispatch on the
type tag, defaulting an absent `tool_call_id` to `""` and an unknown tag to a
plain `HumanMessage`. -/
def deserializeMessage (m : SerializedMessage) : LCMessage :=
  if m.type = "HumanMessage" then .human m.content m.additionalKwargs
  else if m.type = "AIMessage" then .ai m.content m.additionalKwargs
  else if m.type = "SystemMessage" then .system m.content m.additionalKwargs
  else if m.type = "ToolMessage" then
    .tool m.content (m.toolCallId.getD "") m.additionalKwargs
  else .human m.content []

/-- `RedisSessionStore._deserialize`. -/
def redisDeserialize (sessionId : String) (d : SerializedSession) : Session :=
  ⟨sessionId, d.messages.map deserializeMessage, d.metadata, d.createdAt,
   d.updatedAt⟩

theorem deserializeMessage_serializeMessage (m : LCMessage) :
    deserializeMessage (serializeMessage m) = m := by
  cases m <;> simp [serializeMessage, deserializeMessage]

/-! ### Claim C7 — Redis round trip -/

/-- C7: deserializing a serialized session reproduces the ordered message
list (types, contents, kwargs, tool-call ids), the metadata, and both
timestamps exactly. -/
theorem C7_redis_roundtrip (s : Session) :
    (redisDeserialize s.sessionId (redisSerialize s)).messages = s.messages ∧
    (redisDeserialize s.sessionId (redisSerialize s)).metadata = s.metadata ∧
    (redisDeserialize s.sessionId (redisSerialize s)).createdAt = s.createdAt ∧
    (redisDeserialize s.sessionId (redisSerialize s)).updatedAt = s.updatedAt := by
  refine ⟨?_, rfl, rfl, rfl⟩
  simp only [redisDeserialize, redisSerialize, List.map_map]
  have h : (deserializeMessage ∘ serializeMessage) = id := by
    funext m
    exact deserializeMessage_serializeMessage m
  rw [h, List.map_id]

/-! ### `tools/config.py` -/

/-- `ToolDefinition` (the optional `tool` block of a handler record). -/
structure ToolDefinition where
  name : String
  description : String
  inputSchema : List (String × String)
  outputSchema : Option (List (String × String))
deriving DecidableEq, Repr

/-- `HTTPConfig`. -/
structure HTTPConfig where
  endpoint : String
  method : String
  headers : List (String × String)
  contentType : String
deriving DecidableEq, Repr

/-- `HandlerConfig` (the gRPC/MCP/OpenAPI settings blocks are irrelevant to
the claims and omitted; `retries` is documented as a non-negative count). -/
structure HandlerConfig where
  name : String
  type : String
  endpoint : String
  tool : Option ToolDefinition
  httpConfig : Option HTTPConfig
  timeout : String
  retries : Nat
deriving DecidableEq, Repr

/-- `ToolsConfig`. -/
structure ToolsConfig where
  handlers : List HandlerConfig
deriving DecidableEq, Repr

/-- `ToolsConfig.get_tool_handler`: first handler whose `tool` block exists
and carries the given tool name. -/
def ToolsConfig.get_tool_handler (cfg : ToolsConfig) (toolName : String) :
    Option HandlerConfig :=
  cfg.handlers.find? (fun h => match h.tool with
    | some t => t.name == toolName
    | none => false)

/-- `HTTPToolAdapter.tool_name` (from `tools/http.py`): the `tool` block's
name when present, else the handler's own name. -/
def HTTPToolAdapter.tool_name (h : HandlerConfig) : String :=
  match h.tool with
  | some t => t.name
  | none => h.name

/-! ### `tools/adapter.py` and `tools/manager.py` -/

/-- `ToolAdapterError` (message, tool name, retryability flag; `str(e)` of the
exception is its message). -/
structure ToolAdapterError where
  message : String
  tool_name : String
  is_retryable : Bool
deriving DecidableEq, Repr

/-- A live adapter's transport behaviour: the outcome of `adapter.execute` on
each successive attempt (the arguments are fixed for the duration of one
`ToolManager.execute` call, so they are folded into the function). -/
abbrev AdapterFn := Nat → Except ToolAdapterError String

/-- `ToolManager` state after `initialize`: the config and the adapter
registry keyed by tool name. -/
structure ToolManager where
  toolsConfig : Option ToolsConfig
  adapters : List (String × AdapterFn)

/-- The manager's adapter-construction step (its async startup method in
`tools/manager.py`): one adapter per handler of a supported type
(only `"http"`); registration under `HTTPToolAdapter.tool_name`, where a later
duplicate name overwrites the earlier adapter (dict assignment).  `beh` gives
each constructed adapter's transport behaviour. -/
def ToolManager.initAdapters (cfg : Option ToolsConfig)
    (beh : HandlerConfig → AdapterFn) : ToolManager :=
  match cfg with
  | none => ⟨none, []⟩
  | some c =>
    ⟨some c, c.handlers.foldl (fun acc h =>
      if h.type = "http" then dictSet acc (HTTPToolAdapter.tool_name h) (beh h)
      else acc) []⟩

/-- The `for attempt in range(max_retries + 1)` loop of `ToolManager.execute`:
on a `ToolAdapterError`, re-raise when it is not retryable or the budget is
spent (`attempt >= max_retries`), otherwise retry.  `remaining` counts the
iterations still available after this one; every reachable call has
`remaining = max_retries - attempt`, making the recursion structural (the
`remaining = 0` fallback is unreachable).  Returns the outcome together with
the number of adapter attempts performed. -/
def runAttempts (ad : AdapterFn) (max_retries attempt remaining : Nat) :
    Except ToolAdapterError String × Nat :=
  match ad attempt with
  | .ok v => (.ok v, 1)
  | .error e =>
    if !e.is_retryable || max_retries ≤ attempt then (.error e, 1)
    else
      match remaining with
      | 0 => (.error e, 1)
      | r + 1 =>
        let p := runAttempts ad max_retries (attempt + 1) r
        (p.1, p.2 + 1)

/-- `ToolManager.execute`: unknown tools fail with a non-retryable error after
zero adapter attempts; otherwise the retry budget is looked up through
`get_tool_handler` (0 when no handler's `tool` block matches) and the attempt
loop runs. -/
def ToolManager.execute (m : ToolManager) (tool_name : String) :
    Except ToolAdapterError String × Nat :=
  match dictGet m.adapters tool_name with
  | none =>
    (.error ⟨"No adapter found for tool: " ++ tool_name, tool_name, false⟩, 0)
  | some ad =>
    let handler := match m.toolsConfig with
      | some cfg => cfg.get_tool_handler tool_name
      | none => none
    let max_retries := match handler with
      | some h => h.retries
      | none => 0
    runAttempts ad max_retries 0 max_retries

/-! ### Retry-loop lemmas -/

theorem runAttempts_success (ad : AdapterFn) (max_retries : Nat)
    (err : Nat → ToolAdapterError) (v : String) : ∀ (j attempt : Nat),
    (∀ i, i < j → ad (attempt + i) = .error (err (attempt + i)) ∧
      (err (attempt + i)).is_retryable = true) →
    ad (attempt + j) = .ok v → attempt + j ≤ max_retries →
    runAttempts ad max_retries attempt (max_retries - attempt) = (.ok v, j + 1) := by
  intro j
  induction j with
  | zero =>
    intro attempt _ hok _
    simp only [Nat.add_zero] at hok
    simp [runAttempts, hok]
  | succ j ih =>
    intro attempt hfail hok hle
    have h0 := hfail 0 (Nat.succ_pos j)
    simp only [Nat.add_zero] at h0
    have hlt : attempt < max_retries := by omega
    have hrem : max_retries - attempt = (max_retries - (attempt + 1)) + 1 := by
      omega
    rw [runAttempts, h0.1, hrem]
    simp only [h0.2, Bool.not_true, Bool.false_or, decide_eq_true_eq]
    rw [if_neg (by omega)]
    have ihres := ih (attempt + 1)
      (fun i hi => by
        have := hfail (i + 1) (by omega)
        constructor
        · rw [show attempt + 1 + i = attempt + (i + 1) by omega]
          exact this.1
        · rw [show attempt + 1 + i = attempt + (i + 1) by omega]
          exact this.2)
      (by rw [show attempt + 1 + j = attempt + (j + 1) by omega]; exact hok)
      (by omega)
    simp [ihres]

theorem runAttempts_exhausted (ad : AdapterFn) (max_retries : Nat)
    (err : Nat → ToolAdapterError) : ∀ (j attempt : Nat),
    attempt + j = max_retries →
    (∀ i, i ≤ j → ad (attempt + i) = .error (err (attempt + i)) ∧
      (err (attempt + i)).is_retryable = true) →
    runAttempts ad max_retries attempt (max_retries - attempt) =
      (.error (err max_retries), j + 1) := by
  intro j
  induction j with
  | zero =>
    intro attempt heq hfail
    have h0 := hfail 0 (Nat.le_refl 0)
    simp only [Nat.add_zero] at h0
    simp only [Nat.add_zero] at heq
    rw [runAttempts, h0.1]
    simp only [h0.2, Bool.not_true, Bool.false_or, decide_eq_true_eq]
    rw [if_pos (by omega), heq]
  | succ j ih =>
    intro attempt heq hfail
    have h0 := hfail 0 (Nat.zero_le _)
    simp only [Nat.add_zero] at h0
    have hrem : max_retries - attempt = (max_retries - (attempt + 1)) + 1 := by
      omega
    rw [runAttempts, h0.1, hrem]
    simp only [h0.2, Bool.not_true, Bool.false_or, decide_eq_true_eq]
    rw [if_neg (by omega)]
    have ihres := ih (attempt + 1) (by omega)
      (fun i hi => by
        have := hfail (i + 1) (by omega)
        constructor
        · rw [show attempt + 1 + i = attempt + (i + 1) by omega]
          exact this.1
        · rw [show attempt + 1 + i = attempt + (i + 1) by omega]
          exact this.2)
    simp [ihres]

theorem runAttempts_nonretryable (ad : AdapterFn) (max_retries : Nat)
    (e : ToolAdapterError) (h0 : ad 0 = .error e)
    (hnr : e.is_retryable = false) :
    runAttempts ad max_retries 0 max_retries = (.error e, 1) := by
  rw [runAttempts, h0]
  simp [hnr]

/-- Evaluation of `execute` for a single-handler config whose `tool` block
names the executed tool. -/
theorem execute_single_handler (hc : HandlerConfig) (td : ToolDefinition)
    (ad : AdapterFn) (htool : hc.tool = some td) (htype : hc.type = "http") :
    ToolManager.execute (ToolManager.initAdapters (some ⟨[hc]⟩) (fun _ => ad))
        td.name =
      runAttempts ad hc.retries 0 hc.retries := by
  have hname : HTTPToolAdapter.tool_name hc = td.name := by
    simp [HTTPToolAdapter.tool_name, htool]
  have hinit : ToolManager.initAdapters (some ⟨[hc]⟩) (fun _ => ad) =
      ⟨some ⟨[hc]⟩, [(td.name, ad)]⟩ := by
    simp [ToolManager.initAdapters, htype, dictSet, hname]
  rw [hinit]
  have hget : ToolsConfig.get_tool_handler ⟨[hc]⟩ td.name = some hc := by
    simp [ToolsConfig.get_tool_handler, List.find?, htool]
  simp [ToolManager.execute, dictGet, hget]

/-! ### Claim C2 — retry budget semantics -/

/-- C2: for a tool whose handler declares retry budget `N`, an adapter that
fails retryably on the first `N` attempts and succeeds on attempt `N+1` makes
`execute` return the success after exactly `N+1` attempts; `N+1` consecutive
retryable failures make it fail after exactly `N+1` attempts; a non-retryable
failure on the first attempt fails after exactly 1 attempt. -/
theorem C2_retry_budget (hc : HandlerConfig) (td : ToolDefinition) (N : Nat)
    (htool : hc.tool = some td) (htype : hc.type = "http")
    (hret : hc.retries = N) :
    (∀ (ad : AdapterFn) (err : Nat → ToolAdapterError) (v : String),
      (∀ i, i < N → ad i = .error (err i) ∧ (err i).is_retryable = true) →
      ad N = .ok v →
      ToolManager.execute (ToolManager.initAdapters (some ⟨[hc]⟩) (fun _ => ad))
        td.name = (.ok v, N + 1)) ∧
    (∀ (ad : AdapterFn) (err : Nat → ToolAdapterError),
      (∀ i, i ≤ N → ad i = .error (err i) ∧ (err i).is_retryable = true) →
      ToolManager.execute (ToolManager.initAdapters (some ⟨[hc]⟩) (fun _ => ad))
        td.name = (.error (err N), N + 1)) ∧
    (∀ (ad : AdapterFn) (e : ToolAdapterError),
      ad 0 = .error e → e.is_retryable = false →
      ToolManager.execute (ToolManager.initAdapters (some ⟨[hc]⟩) (fun _ => ad))
        td.name = (.error e, 1)) := by
  refine ⟨?_, ?_, ?_⟩
  · intro ad err v hfail hok
    rw [execute_single_handler hc td ad htool htype, hret]
    have := runAttempts_success ad N err v N 0
      (fun i hi => by simpa using hfail i hi) (by simpa using hok)
      (by omega)
    simpa using this
  · intro ad err hfail
    rw [execute_single_handler hc td ad htool htype, hret]
    have := runAttempts_exhausted ad N err N 0 (by omega)
      (fun i hi => by simpa using hfail i hi)
    simpa using this
  · intro ad e h0 hnr
    rw [execute_single_handler hc td ad htool htype, hret]
    exact runAttempts_nonretryable ad N e h0 hnr

/-- Witness for C2 with budget 2: success on the third attempt after two
retryable failures; three retryable failures; one non-retryable failure. -/
theorem C2_retry_budget_witness :
    ToolManager.execute (ToolManager.initAdapters
        (some ⟨[⟨"h1", "http", "http://x", some ⟨"search", "d", [], none⟩,
          none, "30s", 2⟩]⟩)
        (fun _ => fun k => if k < 2 then .error ⟨"t", "search", true⟩
          else .ok "hit")) "search" = (.ok "hit", 3) ∧
    ToolManager.execute (ToolManager.initAdapters
        (some ⟨[⟨"h1", "http", "http://x", some ⟨"search", "d", [], none⟩,
          none, "30s", 2⟩]⟩)
        (fun _ => fun _ => .error ⟨"t", "search", true⟩)) "search" =
      (.error ⟨"t", "search", true⟩, 3) ∧
    ToolManager.execute (ToolManager.initAdapters
        (some ⟨[⟨"h1", "http", "http://x", some ⟨"search", "d", [], none⟩,
          none, "30s", 2⟩]⟩)
        (fun _ => fun _ => .error ⟨"nope", "search", false⟩)) "search" =
      (.error ⟨"nope", "search", false⟩, 1) := by
  have h := C2_retry_budget
    ⟨"h1", "http", "http://x", some ⟨"search", "d", [], none⟩, none, "30s", 2⟩
    ⟨"search", "d", [], none⟩ 2 rfl rfl rfl
  refine ⟨?_, ?_, ?_⟩
  · exact h.1 (fun k => if k < 2 then .error ⟨"t", "search", true⟩ else .ok "hit")
      (fun _ => ⟨"t", "search", true⟩) "hit"
      (fun i hi => by interval_cases i <;> exact ⟨rfl, rfl⟩) rfl
  · exact h.2.1 (fun _ => .error ⟨"t", "search", true⟩)
      (fun _ => ⟨"t", "search", true⟩) (fun i _ => ⟨rfl, rfl⟩)
  · exact h.2.2 (fun _ => .error ⟨"nope", "search", false⟩)
      ⟨"nope", "search", false⟩ rfl rfl

/-! ### Claim C10 — retries are only honoured through the `tool` block name -/

theorem dictGet_isSome_foldl_reg (beh : HandlerConfig → AdapterFn)
    (l : List HandlerConfig) : ∀ (acc : List (String × AdapterFn)) (key : String),
    (dictGet acc key).isSome = true →
    (dictGet (l.foldl (fun acc h =>
      if h.type = "http" then dictSet acc (HTTPToolAdapter.tool_name h) (beh h)
      else acc) acc) key).isSome = true := by
  induction l with
  | nil => intro acc key h; simpa using h
  | cons hd tl ih =>
    intro acc key h
    simp only [List.foldl_cons]
    apply ih
    by_cases ht : hd.type = "http"
    · rw [if_pos ht]
      by_cases hk : HTTPToolAdapter.tool_name hd = key
      · rw [hk, dictGet_dictSet_self]; rfl
      · rw [dictGet_dictSet_ne _ _ _ _ hk]; exact h
    · rw [if_neg ht]; exact h

theorem dictGet_isSome_foldl_reg_mem (beh : HandlerConfig → AdapterFn)
    (l : List HandlerConfig) (hc : HandlerConfig) (hmem : hc ∈ l)
    (htype : hc.type = "http") : ∀ (acc : List (String × AdapterFn)),
    (dictGet (l.foldl (fun acc h =>
      if h.type = "http" then dictSet acc (HTTPToolAdapter.tool_name h) (beh h)
      else acc) acc) (HTTPToolAdapter.tool_name hc)).isSome = true := by
  induction l with
  | nil => cases hmem
  | cons hd tl ih =>
    intro acc
    rcases List.mem_cons.mp hmem with heq | htl
    · subst heq
      simp only [List.foldl_cons, if_pos htype]
      apply dictGet_isSome_foldl_reg
      rw [dictGet_dictSet_self]
      rfl
    · simp only [List.foldl_cons]
      exact ih htl _

/-- C10: a handler configured without a `tool` block is registered under its
own `name`, but `execute` on that name resolves the retry budget through
`get_tool_handler`, which matches only `tool`-block names; it therefore finds
nothing and runs with budget 0, so even a retryable failure is raised after a
single attempt, regardless of the handler's `retries` value.  Only a handler
whose `tool` block carries the executed name can be returned by
`get_tool_handler`. -/
theorem C10_retries_ignored_without_tool_block (cfg : ToolsConfig)
    (hc : HandlerConfig) (beh : HandlerConfig → AdapterFn)
    (hmem : hc ∈ cfg.handlers) (htype : hc.type = "http")
    (hnotool : hc.tool = none)
    (hnocollide : ∀ h2 ∈ cfg.handlers, ∀ td, h2.tool = some td →
      td.name ≠ hc.name) :
    (dictGet (ToolManager.initAdapters (some cfg) beh).adapters hc.name).isSome
      = true ∧
    cfg.get_tool_handler hc.name = none ∧
    (∀ (ad : AdapterFn) (e : ToolAdapterError),
      dictGet (ToolManager.initAdapters (some cfg) beh).adapters hc.name =
        some ad →
      ad 0 = .error e → e.is_retryable = true →
      ToolManager.execute (ToolManager.initAdapters (some cfg) beh) hc.name =
        (.error e, 1)) ∧
    (∀ (cfg2 : ToolsConfig) (n : String) (h2 : HandlerConfig),
      cfg2.get_tool_handler n = some h2 →
      ∃ td, h2.tool = some td ∧ td.name = n) := by
  have hname : HTTPToolAdapter.tool_name hc = hc.name := by
    simp [HTTPToolAdapter.tool_name, hnotool]
  have hnone : cfg.get_tool_handler hc.name = none := by
    rw [ToolsConfig.get_tool_handler, List.find?_eq_none]
    intro h2 hh2
    match h2t : h2.tool with
    | none => simp
    | some td =>
      simp only [beq_iff_eq]
      exact hnocollide h2 hh2 td h2t
  refine ⟨?_, hnone, ?_, ?_⟩
  · rw [show (ToolManager.initAdapters (some cfg) beh).adapters =
        cfg.handlers.foldl (fun acc h =>
          if h.type = "http" then
            dictSet acc (HTTPToolAdapter.tool_name h) (beh h)
          else acc) [] from rfl, ← hname]
    exact dictGet_isSome_foldl_reg_mem beh cfg.handlers hc hmem htype []
  · intro ad e hget h0 hr
    rw [ToolManager.execute, hget]
    simp only [show (ToolManager.initAdapters (some cfg) beh).toolsConfig =
      some cfg from rfl, hnone]
    rw [runAttempts, h0]
    simp [hr]
  · intro cfg2 n h2 hfind
    have hp := List.find?_some hfind
    match h2t : h2.tool with
    | none => rw [h2t] at hp; simp at hp
    | some td =>
      rw [h2t] at hp
      simp only [beq_iff_eq] at hp
      exact ⟨td, rfl, hp⟩

/-- Witness for C10: one handler named "plain" with `retries = 5` and no
`tool` block, whose adapter always fails retryably: one attempt only. -/
theorem C10_retries_ignored_without_tool_block_witness :
    (dictGet (ToolManager.initAdapters
        (some ⟨[⟨"plain", "http", "http://x", none, none, "30s", 5⟩]⟩)
        (fun _ => fun _ => .error ⟨"t", "plain", true⟩)).adapters
      "plain").isSome = true ∧
    ToolsConfig.get_tool_handler
      ⟨[⟨"plain", "http", "http://x", none, none, "30s", 5⟩]⟩ "plain" = none ∧
    ToolManager.execute (ToolManager.initAdapters
        (some ⟨[⟨"plain", "http", "http://x", none, none, "30s", 5⟩]⟩)
        (fun _ => fun _ => .error ⟨"t", "plain", true⟩)) "plain" =
      (.error ⟨"t", "plain", true⟩, 1) := by
  have h := C10_retries_ignored_without_tool_block
    ⟨[⟨"plain", "http", "http://x", none, none, "30s", 5⟩]⟩
    ⟨"plain", "http", "http://x", none, none, "30s", 5⟩
    (fun _ => fun _ => .error ⟨"t", "plain", true⟩)
    (List.mem_singleton.mpr rfl) rfl rfl
    (by intro h2 hh2 td htd; rw [List.mem_singleton] at hh2; subst hh2;
        simp at htd)
  refine ⟨h.1, h.2.1, ?_⟩
  exact h.2.2.1 (fun _ => .error ⟨"t", "plain", true⟩) ⟨"t", "plain", true⟩
    rfl rfl rfl

/-! ### Claim C4 — a failed tool call is contained, but `is_error` is `False`

`_create_tool_handler` (in `tools/manager.py`) catches `ToolAdapterError` and
returns `json.dumps(\x7b"error": str(e), "tool": tool_name\x7d)` as the tool's
ordinary string result, so to LangChain the tool call succeeds; later the
`on_tool_end` branch of `handle_message` emits the tool result with the
hard-coded `is_error=False`. -/

/-- JSON string-literal escaping as performed by `json.dumps` (the inputs at
hand contain no control characters, so quote and backslash escaping suffice). -/
def jsonEscapeChar (c : Char) : List Char :=
  if c = '\\' then ['\\', '\\']
  else if c = '"' then ['\\', '"']
  else [c]

/-- A JSON string literal for `s`. -/
def jsonString (s : String) : String :=
  ⟨'"' :: (s.data.foldr (fun c acc => jsonEscapeChar c ++ acc) []) ++ ['"']⟩

/-- The payload `json.dumps(\x7b"error": str(e), "tool": tool_name\x7d)`
returned by the tool handler's `except` branches. -/
def errorJson (msg tool : String) : String :=
  "\x7b\"error\": " ++ jsonString msg ++ ", \"tool\": " ++ jsonString tool ++
    "\x7d"

/-- The synchronous tool function `_create_tool_handler` hands to LangChain:
run `ToolManager.execute`; return its (string) result, or, when it raises a
`ToolAdapterError`, return the JSON error payload instead of propagating the
exception. -/
def toolHandler (m : ToolManager) (tool_name : String) : String :=
  match (ToolManager.execute m tool_name).1 with
  | .ok r => r
  | .error e => errorJson e.message tool_name

/-- Emitted-tool-result error flag of a wire message. -/
def ServerMessage.toolResultErrorFlag : ServerMessage → Bool
  | .toolResult _ _ e => e
  | _ => false

/-- A concrete failing setup for C4: tool "search" with retry budget 0 whose
adapter fails non-retryably with an HTTP 404. -/
def mgrC4 : ToolManager :=
  ToolManager.initAdapters
    (some ⟨[⟨"h1", "http", "http://x", some ⟨"search", "d", [], none⟩, none,
      "30s", 0⟩]⟩)
    (fun _ => fun _ => .error ⟨"HTTP error 404: nope", "search", false⟩)

/-- The agent stream of the C4 scenario: the failed tool call's start/end pair
followed by further events of the same turn. -/
def eventsC4 : List AgentEvent :=
  [.toolStart "r1" "search" "\x7b\x7d",
   .toolEnd "r1" (toolHandler mgrC4 "search"),
   .chatModelStream "ok", .llmEnd 1 2]

/-- Counterexample to C4 as stated: in the concrete failing-tool scenario the
turn emits exactly one tool-result message, and its `is_error` flag is
`false` — the failure is carried only inside the JSON payload, never as the
wire-level error flag the claim asserts. -/
theorem C4_counterexample :
    ((handleMessage 60 10 0 [] "s" "q" eventsC4 none).1.filter
      ServerMessage.isToolResult) =
      [.toolResult "r1" (errorJson "HTTP error 404: nope" "search") false] ∧
    ((handleMessage 60 10 0 [] "s" "q" eventsC4 none).1.filter
      (fun msg => msg.isToolResult && msg.toolResultErrorFlag)) = [] := by
  constructor <;> rfl

/-- C4 (amended): when `ToolManager.execute` fails, the LangChain tool
handler returns the JSON error payload instead of raising, so the failure is
surfaced to the turn as an ordinary tool-result whose payload carries the
error — with the wire flag `is_error=False`, not an error flag; the
orchestrator's event loop is not aborted: the events after the failed call
are still processed and the turn still ends with its `done` message. -/
theorem C4_amended_tool_failure_contained (m : ToolManager) (tn : String)
    (e : ToolAdapterError) (hfail : (ToolManager.execute m tn).1 = .error e)
    (ttl maxSessions now : Nat) (st : MemStore) (sid content rid : String)
    (pre post : List AgentEvent) :
    toolHandler m tn = errorJson e.message tn ∧
    (handleMessage ttl maxSessions now st sid content
        (pre ++ AgentEvent.toolEnd rid (toolHandler m tn) :: post) none).1 =
      (runEvents ⟨"", 0, 0⟩ pre).2 ++
        ServerMessage.toolResult rid (toolHandler m tn) false ::
        ((runEvents (runEvents ⟨"", 0, 0⟩ pre).1 post).2 ++
         [ServerMessage.done
            (runEvents (runEvents ⟨"", 0, 0⟩ pre).1 post).1.finalContent
            ⟨(runEvents (runEvents ⟨"", 0, 0⟩ pre).1 post).1.inTok,
             (runEvents (runEvents ⟨"", 0, 0⟩ pre).1 post).1.outTok⟩]) := by
  constructor
  · rw [toolHandler, hfail]
  · simp only [handleMessage, runEvents_append, runEvents, stepEvent]
    simp

/-- Witness for C4 (amended) at the concrete scenario of the counterexample's
manager, with one chunk before and one after the tool call. -/
theorem C4_amended_tool_failure_contained_witness :
    toolHandler mgrC4 "search" =
      errorJson "HTTP error 404: nope" "search" ∧
    (handleMessage 60 10 0 [] "s" "q"
        ([AgentEvent.chatModelStream "a"] ++
          AgentEvent.toolEnd "r1" (toolHandler mgrC4 "search") ::
          [AgentEvent.chatModelStream "b"]) none).1 =
      (runEvents ⟨"", 0, 0⟩ [AgentEvent.chatModelStream "a"]).2 ++
        ServerMessage.toolResult "r1" (toolHandler mgrC4 "search") false ::
        ((runEvents (runEvents ⟨"", 0, 0⟩ [AgentEvent.chatModelStream "a"]).1
            [AgentEvent.chatModelStream "b"]).2 ++
         [ServerMessage.done
            (runEvents (runEvents ⟨"", 0, 0⟩ [AgentEvent.chatModelStream "a"]).1
              [AgentEvent.chatModelStream "b"]).1.finalContent
            ⟨(runEvents (runEvents ⟨"", 0, 0⟩ [AgentEvent.chatModelStream "a"]).1
                [AgentEvent.chatModelStream "b"]).1.inTok,
             (runEvents (runEvents ⟨"", 0, 0⟩ [AgentEvent.chatModelStream "a"]).1
                [AgentEvent.chatModelStream "b"]).1.outTok⟩]) :=
  C4_amended_tool_failure_contained mgrC4 "search"
    ⟨"HTTP error 404: nope", "search", false⟩ rfl 60 10 0 [] "s" "q" "r1"
    [AgentEvent.chatModelStream "a"] [AgentEvent.chatModelStream "b"]

/-! ### `tools/http.py` — `_parse_timeout`

Values are exact rationals; on the digit strings and failure cases considered
here this coincides with CPython `float`. -/

/-- ASCII decimal digit test. -/
def isAsciiDigit (c : Char) : Bool := '0' ≤ c && c ≤ '9'

/-- Value of a big-endian digit string. -/
def digitsToNat (ds : List Char) : Nat :=
  ds.foldl (fun a c => 10 * a + (c.toNat - 48)) 0

/-- Magnitude part of a CPython float literal: digits with optional fraction
and optional exponent, at least one mantissa digit required. -/
def pyFloatMag (cs : List Char) : Option ℚ :=
  let ip := cs.takeWhile isAsciiDigit
  let r1 := cs.dropWhile isAsciiDigit
  let fp := if r1.head? = some '.' then r1.tail.takeWhile isAsciiDigit else []
  let r2 := if r1.head? = some '.' then r1.tail.dropWhile isAsciiDigit else r1
  if ip.isEmpty && fp.isEmpty then none
  else
    let mant : ℚ :=
      (digitsToNat ip : ℚ) + (digitsToNat fp : ℚ) / (10 : ℚ) ^ fp.length
    if r2.isEmpty then some mant
    else if r2.head? = some 'e' ∨ r2.head? = some 'E' then
      let r3 := r2.tail
      let r4 := if r3.head? = some '-' ∨ r3.head? = some '+' then r3.tail
        else r3
      let ep := r4.takeWhile isAsciiDigit
      if ep.isEmpty ∨ ¬(r4.dropWhile isAsciiDigit).isEmpty then none
      else
        let expVal : ℤ := if r3.head? = some '-' then -(digitsToNat ep : ℤ)
          else (digitsToNat ep : ℤ)
        some (mant * (10 : ℚ) ^ expVal)
    else none

/-- CPython `float(str)` on finite decimal literals: strip surrounding
spaces, take an optional sign, then the magnitude (the `inf`/`nan`/underscore
forms never arise in the inputs at hand). -/
def pyFloat? (s : String) : Option ℚ :=
  let t1 := s.data.dropWhile (fun c => c = ' ')
  let t := (t1.reverse.dropWhile (fun c => c = ' ')).reverse
  if t.head? = some '-' then (pyFloatMag t.tail).map (fun q => -q)
  else if t.head? = some '+' then pyFloatMag t.tail
  else pyFloatMag t

/-- `str.endswith(c)` for a one-character suffix. -/
def endsWithChar (s : String) (c : Char) : Bool :=
  match s.data.getLast? with
  | some d => d = c
  | none => false

/-- The slice `s[:-1]`. -/
def dropLast1 (s : String) : String := ⟨s.data.dropLast⟩

/-- `HTTPToolAdapter._parse_timeout`.  `Except.error ()` marks an uncaught
`ValueError` from `float(...)`: only the bare-number branch wraps the
conversion in `try/except`; the three suffix branches call `float` bare. -/
def parse_timeout (timeout_str : String) : Except Unit ℚ :=
  if endsWithChar timeout_str 's' then
    match pyFloat? (dropLast1 timeout_str) with
    | some q => .ok q
    | none => .error ()
  else if endsWithChar timeout_str 'm' then
    match pyFloat? (dropLast1 timeout_str) with
    | some q => .ok (q * 60)
    | none => .error ()
  else if endsWithChar timeout_str 'h' then
    match pyFloat? (dropLast1 timeout_str) with
    | some q => .ok (q * 3600)
    | none => .error ()
  else
    match pyFloat? timeout_str with
    | some q => .ok q
    | none => .ok 30

/-! ### Digit-string lemmas for C9 -/

theorem ne_of_digit_of_not_digit (c d : Char) (h : isAsciiDigit c = true)
    (hd : isAsciiDigit d = false) : c ≠ d := by
  intro heq
  subst heq
  rw [h] at hd
  cases hd

theorem dropWhile_space_of_digits (l : List Char)
    (h : ∀ c ∈ l, isAsciiDigit c = true) :
    l.dropWhile (fun c => c = ' ') = l := by
  cases l with
  | nil => rfl
  | cons a t =>
    rw [List.dropWhile_cons, if_neg]
    simp only [decide_eq_true_eq]
    exact ne_of_digit_of_not_digit a ' ' (h a (List.mem_cons_self a t))
      (by decide)

theorem takeWhile_digits_all (l : List Char)
    (h : ∀ c ∈ l, isAsciiDigit c = true) : l.takeWhile isAsciiDigit = l := by
  induction l with
  | nil => rfl
  | cons a t ih =>
    rw [List.takeWhile_cons, if_pos (h a (List.mem_cons_self a t))]
    rw [ih (fun c hc => h c (List.mem_cons_of_mem a hc))]

theorem dropWhile_digits_all (l : List Char)
    (h : ∀ c ∈ l, isAsciiDigit c = true) : l.dropWhile isAsciiDigit = [] := by
  induction l with
  | nil => rfl
  | cons a t ih =>
    rw [List.dropWhile_cons, if_pos (h a (List.mem_cons_self a t))]
    exact ih (fun c hc => h c (List.mem_cons_of_mem a hc))

theorem pyFloat_of_digits (s : String) (hne : s.data ≠ [])
    (hdig : ∀ c ∈ s.data, isAsciiDigit c = true) :
    pyFloat? s = some ((digitsToNat s.data : ℚ)) := by
  have htrim1 : s.data.dropWhile (fun c => c = ' ') = s.data :=
    dropWhile_space_of_digits s.data hdig
  have htrim2 : (s.data.reverse.dropWhile (fun c => c = ' ')).reverse = s.data := by
    rw [dropWhile_space_of_digits s.data.reverse
      (fun c hc => hdig c (List.mem_reverse.mp hc)), List.reverse_reverse]
  obtain ⟨a, t, hat⟩ := List.exists_cons_of_ne_nil hne
  have hhead : s.data.head? = some a := by rw [hat]; rfl
  have hamem : a ∈ s.data := by rw [hat]; exact List.mem_cons_self a t
  have hadig : isAsciiDigit a = true := hdig a hamem
  rw [pyFloat?]
  simp only [htrim1, htrim2]
  rw [if_neg, if_neg]
  · rw [pyFloatMag]
    simp only [takeWhile_digits_all s.data hdig, dropWhile_digits_all s.data hdig]
    rw [if_neg (by rw [hat]; simp)]
    simp [digitsToNat]
  · rw [hhead]
    intro hc
    exact ne_of_digit_of_not_digit a '+' hadig (by decide)
      (Option.some_injective _ hc)
  · rw [hhead]
    intro hc
    exact ne_of_digit_of_not_digit a '-' hadig (by decide)
      (Option.some_injective _ hc)

theorem endsWithChar_digits (s : String) (c : Char) (hne : s.data ≠ [])
    (hdig : ∀ ch ∈ s.data, isAsciiDigit ch = true)
    (hc : isAsciiDigit c = false) : endsWithChar s c = false := by
  rw [endsWithChar, List.getLast?_eq_getLast s.data hne]
  simp only [decide_eq_false_iff_not]
  exact ne_of_digit_of_not_digit (s.data.getLast hne) c
    (hdig _ (List.getLast_mem hne)) hc

/-! ### Claim C9 — timeout-string parsing -/

/-- Counterexample to C9 as stated: `"xs"` is an unparseable timeout string,
yet `_parse_timeout` does not return the documented 30-second default — the
`"s"` branch calls `float("x")` outside any `try`, so a `ValueError`
propagates. -/
theorem C9_counterexample : parse_timeout "xs" = .error () := by rfl

/-- C9 (amended): `"30s"` parses to 30 seconds, `"2m"` to 120, `"1h"` to
3600, a bare numeric (digit) string to its value, and an unparseable string
NOT ending in `s`/`m`/`h` to the 30-second default; but a string ending in
`s`, `m` or `h` whose prefix fails float parsing raises `ValueError` instead
of defaulting. -/
theorem C9_amended_parse_timeout :
    parse_timeout "30s" = .ok 30 ∧
    parse_timeout "2m" = .ok 120 ∧
    parse_timeout "1h" = .ok 3600 ∧
    (∀ s : String, s.data ≠ [] → (∀ c ∈ s.data, isAsciiDigit c = true) →
      parse_timeout s = .ok ((digitsToNat s.data : ℚ))) ∧
    (∀ s : String, endsWithChar s 's' = false → endsWithChar s 'm' = false →
      endsWithChar s 'h' = false → pyFloat? s = none →
      parse_timeout s = .ok 30) ∧
    (∀ s : String, endsWithChar s 's' = true →
      pyFloat? (dropLast1 s) = none → parse_timeout s = .error ()) ∧
    (∀ s : String, endsWithChar s 's' = false → endsWithChar s 'm' = true →
      pyFloat? (dropLast1 s) = none → parse_timeout s = .error ()) ∧
    (∀ s : String, endsWithChar s 's' = false → endsWithChar s 'm' = false →
      endsWithChar s 'h' = true → pyFloat? (dropLast1 s) = none →
      parse_timeout s = .error ()) := by
  refine ⟨?_, ?_, ?_, ?_, ?_, ?_, ?_, ?_⟩
  · rw [parse_timeout, if_pos (by rfl : endsWithChar "30s" 's' = true),
      show dropLast1 "30s" = "30" from rfl,
      pyFloat_of_digits "30" (by decide) (by decide),
      show digitsToNat "30".data = 30 from rfl]
    norm_num
  · rw [parse_timeout, if_neg (by intro hc; cases hc),
      if_pos (by rfl : endsWithChar "2m" 'm' = true),
      show dropLast1 "2m" = "2" from rfl,
      pyFloat_of_digits "2" (by decide) (by decide),
      show digitsToNat "2".data = 2 from rfl]
    norm_num
  · rw [parse_timeout, if_neg (by intro hc; cases hc),
      if_neg (by intro hc; cases hc),
      if_pos (by rfl : endsWithChar "1h" 'h' = true),
      show dropLast1 "1h" = "1" from rfl,
      pyFloat_of_digits "1" (by decide) (by decide),
      show digitsToNat "1".data = 1 from rfl]
    norm_num
  · intro s hne hdig
    have hs := endsWithChar_digits s 's' hne hdig (by decide)
    have hm := endsWithChar_digits s 'm' hne hdig (by decide)
    have hh := endsWithChar_digits s 'h' hne hdig (by decide)
    rw [parse_timeout, if_neg (by rw [hs]; exact Bool.false_ne_true),
      if_neg (by rw [hm]; exact Bool.false_ne_true),
      if_neg (by rw [hh]; exact Bool.false_ne_true),
      pyFloat_of_digits s hne hdig]
  · intro s hs hm hh hp
    rw [parse_timeout, if_neg (by rw [hs]; exact Bool.false_ne_true),
      if_neg (by rw [hm]; exact Bool.false_ne_true),
      if_neg (by rw [hh]; exact Bool.false_ne_true), hp]
  · intro s hs hp
    rw [parse_timeout, if_pos hs, hp]
  · intro s hs hm hp
    rw [parse_timeout, if_neg (by rw [hs]; exact Bool.false_ne_true),
      if_pos hm, hp]
  · intro s hs hm hh hp
    rw [parse_timeout, if_neg (by rw [hs]; exact Bool.false_ne_true),
      if_neg (by rw [hm]; exact Bool.false_ne_true), if_pos hh, hp]

/-- Witness for C9 (amended): the digit string `"7"`, the suffix-free
unparseable string `"abc"`, and the raising inputs `"xs"`, `"xm"`, `"xh"`. -/
theorem C9_amended_parse_timeout_witness :
    parse_timeout "7" = .ok ((digitsToNat "7".data : ℚ)) ∧
    parse_timeout "abc" = .ok 30 ∧
    parse_timeout "xs" = .error () ∧
    parse_timeout "xm" = .error () ∧
    parse_timeout "xh" = .error () :=
  ⟨C9_amended_parse_timeout.2.2.2.1 "7" (by decide) (by decide),
   C9_amended_parse_timeout.2.2.2.2.1 "abc" (by rfl) (by rfl) (by rfl) (by rfl),
   C9_amended_parse_timeout.2.2.2.2.2.1 "xs" (by rfl) (by rfl),
   C9_amended_parse_timeout.2.2.2.2.2.2.1 "xm" (by rfl) (by rfl) (by rfl),
   C9_amended_parse_timeout.2.2.2.2.2.2.2 "xh" (by rfl) (by rfl) (by rfl)
     (by rfl)⟩

/-! ### Claim C3 — LRU behaviour of the bounded in-process store -/

/-- Spec-side recency list of a sequence of saved ids: the distinct ids in
least-recently-used-first order ("most-recently-used" as the claim defines
it: every save re-inserts its id at the most-recent end). -/
def mruFold (ids : List String) : List String :=
  ids.foldl (fun acc i => acc.erase i ++ [i]) []

/-- The last `n` elements of a list. -/
def takeRight (l : List String) (n : Nat) : List String := l.drop (l.length - n)

/-- The effect of one `save` on the store's id order (id ordering part of
`memSave`). -/
def pushSave (maxSessions : Nat) (l : List String) (i : String) : List String :=
  (l.erase i).drop ((l.erase i).length + 1 - maxSessions) ++ [i]

theorem storeIds_memSave (maxSessions now : Nat) (st : MemStore) (s : Session) :
    storeIds (memSave maxSessions now st s) =
      pushSave maxSessions (storeIds st) s.sessionId := by
  have hlen : (dictErase st s.sessionId).length =
      ((st.map Prod.fst).erase s.sessionId).length := by
    rw [← map_fst_dictErase, List.length_map]
  simp only [memSave, pushSave, storeIds, List.map_append, List.map_drop,
    map_fst_dictErase, hlen]
  rfl

theorem mruFold_append (ids : List String) (i : String) :
    mruFold (ids ++ [i]) = (mruFold ids).erase i ++ [i] := by
  rw [mruFold, List.foldl_append]
  rfl

theorem mruStep_nodup (acc : List String) (i : String) (h : acc.Nodup) :
    (acc.erase i ++ [i]).Nodup := by
  rw [List.nodup_append]
  refine ⟨h.erase i, List.nodup_singleton i, ?_⟩
  intro a ha hb
  rw [List.mem_singleton] at hb
  subst hb
  exact ((List.Nodup.mem_erase_iff h).mp ha).1 rfl

theorem mruFold_nodup (ids : List String) : (mruFold ids).Nodup := by
  suffices hgen : ∀ acc : List String, acc.Nodup →
      (ids.foldl (fun acc i => acc.erase i ++ [i]) acc).Nodup by
    exact hgen [] List.nodup_nil
  induction ids with
  | nil => intro acc h; exact h
  | cons a t ih =>
    intro acc h
    rw [List.foldl_cons]
    exact ih _ (mruStep_nodup acc a h)

theorem pushSave_takeRight (C : Nat) (hC : 0 < C) (R : List String)
    (hR : R.Nodup) (i : String) :
    pushSave C (takeRight R C) i = takeRight (R.erase i ++ [i]) C := by
  obtain ⟨D, T, hDT, hDlen⟩ :
      ∃ D T, D ++ T = R ∧ D.length = R.length - C :=
    ⟨R.take (R.length - C), R.drop (R.length - C), List.take_append_drop _ R,
      by rw [List.length_take]; exact Nat.min_eq_left (Nat.sub_le _ _)⟩
  have hRlen : D.length + T.length = R.length := by
    rw [← List.length_append, hDT]
  have hndDT : (D ++ T).Nodup := by rw [hDT]; exact hR
  have hTR : takeRight R C = T := by
    rw [takeRight, ← hDT, List.length_append,
      show D.length + T.length - C = D.length by omega, List.drop_left]
  rw [hTR]
  by_cases hi : i ∈ T
  · -- the saved id is already among the most-recently-used suffix
    have hiR : i ∈ R := by rw [← hDT]; exact List.mem_append_right D hi
    have hiD : i ∉ D := fun hmem => (List.nodup_append.mp hndDT).2.2 hmem hi
    have herase : R.erase i = D ++ T.erase i := by
      rw [← hDT]; exact List.erase_append_right _ hiD
    have hTpos : 1 ≤ T.length := List.length_pos.mpr (List.ne_nil_of_mem hi)
    have hTei : (T.erase i).length = T.length - 1 := List.length_erase_of_mem hi
    have hRpos : 1 ≤ R.length := List.length_pos.mpr (List.ne_nil_of_mem hiR)
    rw [pushSave, hTei, show T.length - 1 + 1 - C = 0 by omega, List.drop_zero]
    have hlenR : (R.erase i ++ [i]).length = R.length := by
      rw [List.length_append, List.length_erase_of_mem hiR,
        List.length_singleton]
      omega
    rw [takeRight, hlenR, herase, List.append_assoc,
      show R.length - C = D.length from hDlen.symm, List.drop_left]
  · -- the saved id is not among the kept suffix
    have hTE : T.erase i = T := List.erase_of_not_mem hi
    rw [pushSave, hTE]
    by_cases hCR : C ≤ R.length
    · have hTC : T.length = C := by omega
      rw [show T.length + 1 - C = 1 by omega]
      by_cases hiR : i ∈ R
      · have hiD : i ∈ D := by
          rw [← hDT] at hiR
          rcases List.mem_append.mp hiR with h | h
          · exact h
          · exact absurd h hi
        have herase : R.erase i = D.erase i ++ T := by
          rw [← hDT]; exact List.erase_append_left _ hiD
        have hDpos : 1 ≤ D.length := List.length_pos.mpr (List.ne_nil_of_mem hiD)
        have hDe : (D.erase i).length = D.length - 1 :=
          List.length_erase_of_mem hiD
        have hRpos : 1 ≤ R.length := List.length_pos.mpr (List.ne_nil_of_mem hiR)
        have hlen2 : (R.erase i ++ [i]).length = R.length := by
          rw [List.length_append, List.length_erase_of_mem hiR,
            List.length_singleton]
          omega
        rw [takeRight, hlen2, herase, List.append_assoc,
          show R.length - C = (D.erase i).length + 1 by rw [hDe]; omega,
          List.drop_append,
          List.drop_append_of_le_length (by omega : 1 ≤ T.length)]
      · have herase : R.erase i = R := List.erase_of_not_mem hiR
        rw [takeRight, herase,
          show (R ++ [i]).length - C = D.length + 1 by
            rw [List.length_append, List.length_singleton]; omega]
        conv_rhs => rw [← hDT]
        rw [List.append_assoc, List.drop_append,
          List.drop_append_of_le_length (by omega : 1 ≤ T.length)]
    · -- the store is not yet at capacity: nothing is evicted
      have hTeqR : T = R := by
        have hDnil : D = [] := List.length_eq_zero.mp (by omega)
        rw [← hDT, hDnil, List.nil_append]
      have hiR : i ∉ R := by rw [← hTeqR]; exact hi
      rw [show T.length + 1 - C = 0 by omega, List.drop_zero, takeRight,
        List.erase_of_not_mem hiR,
        show (R ++ [i]).length - C = 0 by
          rw [List.length_append, List.length_singleton]; omega,
        List.drop_zero, hTeqR]

theorem foldl_memSave_storeIds (C now : Nat) (hC : 0 < C)
    (sessions : List Session) :
    storeIds (sessions.foldl (memSave C now) []) =
      takeRight (mruFold (sessions.map Session.sessionId)) C := by
  induction sessions using List.reverseRecOn with
  | nil => simp [storeIds, mruFold, takeRight]
  | append_singleton l s ih =>
    rw [List.foldl_append, List.foldl_cons, List.foldl_nil, List.map_append,
      List.map_cons, List.map_nil, storeIds_memSave, ih, mruFold_append]
    exact pushSave_takeRight C hC _ (mruFold_nodup _) s.sessionId

theorem mem_dictErase_sub (st : MemStore) (sid : String) :
    ∀ e ∈ dictErase st sid, e ∈ st := by
  induction st with
  | nil => intro e he; cases he
  | cons p rest ih =>
    intro e he
    obtain ⟨k, v⟩ := p
    by_cases hk : k = sid
    · rw [dictErase, if_pos hk] at he
      exact List.mem_cons_of_mem _ he
    · rw [dictErase, if_neg hk] at he
      rcases List.mem_cons.mp he with h | h
      · rw [h]; exact List.mem_cons_self _ _
      · exact List.mem_cons_of_mem _ (ih e h)

theorem memSave_updatedAt (C now : Nat) (st : MemStore) (s : Session)
    (hst : ∀ e ∈ st, e.2.updatedAt = now) :
    ∀ e ∈ memSave C now st s, e.2.updatedAt = now := by
  intro e he
  rw [memSave] at he
  rcases List.mem_append.mp he with h | h
  · exact hst e (mem_dictErase_sub st s.sessionId e
      ((List.drop_sublist _ _).subset h))
  · rw [List.mem_singleton] at h
    rw [h]

theorem foldl_memSave_updatedAt (C now : Nat) (sessions : List Session) :
    ∀ e ∈ sessions.foldl (memSave C now) [], e.2.updatedAt = now := by
  induction sessions using List.reverseRecOn with
  | nil => intro e he; cases he
  | append_singleton l s ih =>
    rw [List.foldl_append, List.foldl_cons, List.foldl_nil]
    exact memSave_updatedAt C now _ s ih

theorem memGet_isSome_of_fresh (ttl now : Nat) (st : MemStore) (sid : String)
    (hfresh : ∀ e ∈ st, e.2.updatedAt = now) :
    ((memGet ttl now st sid).1).isSome = true ↔ sid ∈ storeIds st := by
  match hd : dictGet st sid with
  | none =>
    have hres : memGet ttl now st sid = (none, st) := by simp [memGet, hd]
    rw [hres]
    simp only [Option.isSome_none, Bool.false_eq_true, false_iff]
    exact (dictGet_eq_none_iff st sid).mp hd
  | some s =>
    have hup : s.updatedAt = now := hfresh (sid, s) (dictGet_mem st sid s hd)
    have hres : memGet ttl now st sid =
        (some s, dictErase st sid ++ [(sid, s)]) := by
      simp [memGet, hd, hup]
    rw [hres]
    simp only [Option.isSome_some, true_iff]
    exact (dictGet_isSome_iff st sid).mp (by rw [hd]; rfl)

theorem dictErase_not_mem {α : Type} (l : List (String × α)) (key : String)
    (h : key ∉ l.map Prod.fst) : dictErase l key = l := by
  induction l with
  | nil => rfl
  | cons p rest ih =>
    obtain ⟨k, v⟩ := p
    simp only [List.map_cons, List.mem_cons] at h
    push_neg at h
    rw [dictErase, if_neg (fun hk => h.1 hk.symm), ih h.2]

/-- C3: starting from an empty bounded store with capacity `C`, after any
sequence of saves whose distinct ids exceed `C`, the stored ids are exactly
the last `C` entries of the save-recency order (the `C` most-recently-used
ids, LRU first), those are exactly the ids retrievable via `get`, eviction
removes the least-recently-used (front) entry first, a successful `get`
promotes its id to most-recently-used, and `save` (re-)inserts its id as
most-recently-used. -/
theorem C3_lru_bounded_store (C now ttl : Nat) (hC : 0 < C)
    (sessions : List Session)
    (hover : C < (mruFold (sessions.map Session.sessionId)).length) :
    storeIds (sessions.foldl (memSave C now) []) =
      takeRight (mruFold (sessions.map Session.sessionId)) C ∧
    (storeIds (sessions.foldl (memSave C now) [])).length = C ∧
    (∀ sid : String,
      ((memGet ttl now (sessions.foldl (memSave C now) []) sid).1).isSome =
          true ↔
        sid ∈ takeRight (mruFold (sessions.map Session.sessionId)) C) ∧
    (∀ (st : MemStore) (sid : String) (s : Session),
      (memGet ttl now st sid).1 = some s →
      storeIds (memGet ttl now st sid).2 = (storeIds st).erase sid ++ [sid]) ∧
    (∀ (st : MemStore) (s : Session), s.sessionId ∉ storeIds st →
      (storeIds st).length = C →
      storeIds (memSave C now st s) =
        (storeIds st).drop 1 ++ [s.sessionId]) := by
  have hids := foldl_memSave_storeIds C now hC sessions
  refine ⟨hids, ?_, ?_, ?_, ?_⟩
  · rw [hids, takeRight, List.length_drop]
    omega
  · intro sid
    rw [memGet_isSome_of_fresh ttl now _ sid
      (foldl_memSave_updatedAt C now sessions), hids]
  · intro st sid s hres
    match hd : dictGet st sid with
    | none =>
      have hmg : memGet ttl now st sid = (none, st) := by simp [memGet, hd]
      rw [hmg] at hres
      cases hres
    | some s2 =>
      by_cases hexp : ttl < now - s2.updatedAt
      · have hmg : memGet ttl now st sid = (none, dictErase st sid) := by
          simp [memGet, hd, hexp]
        rw [hmg] at hres
        cases hres
      · have hmg : memGet ttl now st sid =
            (some s2, dictErase st sid ++ [(sid, s2)]) := by
          simp [memGet, hd, hexp]
        rw [hmg]
        simp only [storeIds, List.map_append, map_fst_dictErase]
        rfl
  · intro st s hnm hlen
    rw [storeIds_memSave, pushSave, List.erase_of_not_mem hnm, hlen,
      show C + 1 - C = 1 by omega]

/-- Witness for C3: sessions "a", "b", "c" saved into a capacity-2 store —
"a" is evicted; plus concrete instances of the promotion and eviction
conjuncts. -/
theorem C3_lru_bounded_store_witness :
    storeIds ([(⟨"a", [], [], 0, 0⟩ : Session), ⟨"b", [], [], 0, 0⟩,
        ⟨"c", [], [], 0, 0⟩].foldl (memSave 2 0) []) =
      takeRight (mruFold ([(⟨"a", [], [], 0, 0⟩ : Session),
        ⟨"b", [], [], 0, 0⟩, ⟨"c", [], [], 0, 0⟩].map Session.sessionId)) 2 ∧
    (storeIds ([(⟨"a", [], [], 0, 0⟩ : Session), ⟨"b", [], [], 0, 0⟩,
        ⟨"c", [], [], 0, 0⟩].foldl (memSave 2 0) [])).length = 2 ∧
    (((memGet 5 0 ([(⟨"a", [], [], 0, 0⟩ : Session), ⟨"b", [], [], 0, 0⟩,
          ⟨"c", [], [], 0, 0⟩].foldl (memSave 2 0) []) "a").1).isSome = true ↔
      "a" ∈ takeRight (mruFold ([(⟨"a", [], [], 0, 0⟩ : Session),
        ⟨"b", [], [], 0, 0⟩, ⟨"c", [], [], 0, 0⟩].map Session.sessionId)) 2) ∧
    storeIds (memGet 5 0 [("x", ⟨"x", [], [], 0, 0⟩)] "x").2 =
      (storeIds [("x", ⟨"x", [], [], 0, 0⟩)]).erase "x" ++ ["x"] ∧
    storeIds (memSave 2 0 [("a", ⟨"a", [], [], 0, 0⟩),
        ("b", ⟨"b", [], [], 0, 0⟩)] ⟨"c", [], [], 0, 0⟩) =
      (storeIds [("a", ⟨"a", [], [], 0, 0⟩),
        ("b", ⟨"b", [], [], 0, 0⟩)]).drop 1 ++
        [(⟨"c", [], [], 0, 0⟩ : Session).sessionId] := by
  have h := C3_lru_bounded_store 2 0 5 (by decide)
    [⟨"a", [], [], 0, 0⟩, ⟨"b", [], [], 0, 0⟩, ⟨"c", [], [], 0, 0⟩]
    (by decide)
  exact ⟨h.1, h.2.1, h.2.2.1 "a",
    h.2.2.2.1 [("x", ⟨"x", [], [], 0, 0⟩)] "x" ⟨"x", [], [], 0, 0⟩ (by decide),
    h.2.2.2.2 [("a", ⟨"a", [], [], 0, 0⟩), ("b", ⟨"b", [], [], 0, 0⟩)]
      ⟨"c", [], [], 0, 0⟩ (by decide) (by decide)⟩

end Omnia
